import Mathlib

/-!
Verification development for the TDS value-encoding core (`src/types.rs`).

The Rust source is shallowly embedded: bytes are `Nat` values below 256,
Rust `i32` values are `Int` values in `[-2^31, 2^31)`, fallible operations
return `Except Failure`.  Rust panics (`panic!`, `assert!`, `assert_eq!`,
`unimplemented!`) are modelled by the `Failure.panicked` constructor, the
`TdsError::Protocol` and `TdsError::Conversion` error variants by
`Failure.protocol` and `Failure.conversion`, and the non-blocking
"not ready" transport signal by `Failure.notReady`.

The transport primitives (`transport::write_bytes_fragment`,
`transport::write_u16_fragment`, `transport::write_varchar_fragment`,
`TdsTransport::read_u8`, reading a little-endian `i32`) live in
`transport.rs`, which is not part of the sources; they are modelled from
the specification as noted on each definition.
-/

deriving instance DecidableEq for Except

namespace Tds

/-- Fixed-length wire type tags, `FixedLenType` in `types.rs` (byte values
0x1F, 0x30, 0x32, 0x34, 0x38, 0x3A, 0x3B, 0x3C, 0x3D, 0x3E, 0x7A, 0x7F). -/
inductive FixedLenType where
  | null
  | int1
  | bit
  | int2
  | int4
  | datetime4
  | float4
  | money
  | datetime
  | float8
  | money4
  | int8
deriving DecidableEq, Repr

/-- Conversion of a wire byte to a fixed-length tag, the
`uint_to_enum!(FixedLenType, ...)` generated `from_u8`. -/
def FixedLenType.from_u8 : Nat → Option FixedLenType
  | 0x1F => some .null
  | 0x30 => some .int1
  | 0x32 => some .bit
  | 0x34 => some .int2
  | 0x38 => some .int4
  | 0x3A => some .datetime4
  | 0x3B => some .float4
  | 0x3C => some .money
  | 0x3D => some .datetime
  | 0x3E => some .float8
  | 0x7A => some .money4
  | 0x7F => some .int8
  | _ => none

/-- Variable-length wire type tags, `VarLenType` in `types.rs`. -/
inductive VarLenType where
  | guid
  | intn
  | bitn
  | decimaln
  | numericn
  | floatn
  | money
  | datetimen
  | daten
  | timen
  | datetime2
  | datetimeOffsetn
  | bigVarBin
  | bigVarChar
  | bigBinary
  | bigChar
  | nvarchar
  | nchar
  | xml
  | udt
  | text
  | image
  | ntext
  | ssvariant
deriving DecidableEq, Repr

/-- Conversion of a wire byte to a variable-length tag, the
`uint_to_enum!(VarLenType, ...)` generated `from_u8`. -/
def VarLenType.from_u8 : Nat → Option VarLenType
  | 0x24 => some .guid
  | 0x26 => some .intn
  | 0x68 => some .bitn
  | 0x6A => some .decimaln
  | 0x6C => some .numericn
  | 0x6D => some .floatn
  | 0x6E => some .money
  | 0x6F => some .datetimen
  | 0x28 => some .daten
  | 0x29 => some .timen
  | 0x2A => some .datetime2
  | 0x2B => some .datetimeOffsetn
  | 0xA5 => some .bigVarBin
  | 0xA7 => some .bigVarChar
  | 0xAD => some .bigBinary
  | 0xAF => some .bigChar
  | 0xE7 => some .nvarchar
  | 0xEF => some .nchar
  | 0xF1 => some .xml
  | 0xF0 => some .udt
  | 0x23 => some .text
  | 0x22 => some .image
  | 0x63 => some .ntext
  | 0x62 => some .ssvariant
  | _ => none

/-- Type descriptor, `TypeInfo` in `types.rs`. -/
inductive TypeInfo where
  | fixedLen (ty : FixedLenType)
  | varLenSized (ty : VarLenType) (len : Nat)
deriving DecidableEq, Repr

/-- Column metadata record; only the `ty` field is used by this core
(`tokens::BaseMetaDataColumn`). -/
structure BaseMetaDataColumn where
  ty : TypeInfo
deriving DecidableEq, Repr

/-- Decoded column value, `ColumnData` in `types.rs`: a 32-bit signed
integer, an owned/borrowed string, or a buffer-backed string. -/
inductive ColumnData where
  | i32 (v : Int)
  | str (s : String)
  | bstring (buf : List Nat)
deriving DecidableEq, Repr

/-- Failure modes of the core.  `protocol` and `conversion` model the
`TdsError::Protocol` and `TdsError::Conversion` variants, `panicked`
models a Rust panic (`assert!`, `assert_eq!`, `panic!`, `unimplemented!`),
and `notReady` models the non-blocking transport's not-ready signal. -/
inductive Failure where
  | notReady
  | protocol (msg : String)
  | conversion (msg : String)
  | panicked (msg : String)
deriving DecidableEq, Repr

/-- Whether a result is a protocol error. -/
def failsWithProtocol {α : Type} : Except Failure α → Bool
  | .error (.protocol _) => true
  | _ => false

/-- Whether a result succeeded. -/
def succeeds {α : Type} : Except Failure α → Bool
  | .ok _ => true
  | _ => false

/-- Modelled from the spec: the receiving transport (`TdsTransport` in the
missing `transport.rs`), reduced to the byte stream still to be read. -/
structure TdsTransport where
  buf : List Nat
deriving DecidableEq, Repr

/-- Modelled from the spec: the byte-level non-blocking transport read
`read_u8` (section 6 of the spec): it returns the next byte or the
not-ready signal, never blocking. -/
def TdsTransport.read_u8 : TdsTransport → Except Failure (Nat × TdsTransport)
  | ⟨[]⟩ => .error .notReady
  | ⟨b :: rest⟩ => .ok (b, ⟨rest⟩)

/-- Modelled from the spec: the little-endian 32-bit transport read
(`trans.read_i32::<LittleEndian>()`): it returns the signed 32-bit value
of the next four bytes, or not-ready without consuming partial fields. -/
def TdsTransport.read_i32 : TdsTransport → Except Failure (Int × TdsTransport)
  | ⟨b0 :: b1 :: b2 :: b3 :: rest⟩ =>
      let u : Nat := b0 + 256 * b1 + 65536 * b2 + 16777216 * b3
      .ok (if u < 2147483648 then (u : Int) else (u : Int) - 4294967296, ⟨rest⟩)
  | _ => .error .notReady

/-- Embedding of `TypeInfo::parse`: read one tag byte; a fixed-length tag
is returned immediately; the nullable-integer variable-length tag reads
one further length byte; other recognized variable-length tags hit
`unimplemented!()`; an unrecognized byte is a protocol error carrying the
offending byte value (formatted in decimal, as `{:?}` on a `u8` does). -/
def TypeInfo.parse (trans : TdsTransport) : Except Failure (TypeInfo × TdsTransport) :=
  match trans.read_u8 with
  | .error e => .error e
  | .ok (ty, trans) =>
    match FixedLenType.from_u8 ty with
    | some fixed => .ok (TypeInfo.fixedLen fixed, trans)
    | none =>
      match VarLenType.from_u8 ty with
      | some vty =>
        match vty with
        | VarLenType.intn =>
          match trans.read_u8 with
          | .error e => .error e
          | .ok (len, trans) => .ok (TypeInfo.varLenSized vty len, trans)
        | _ => .error (.panicked "not implemented")
      | none => .error (.protocol ("invalid or unsupported column type: " ++ toString ty))

/-- Embedding of `ColumnData::parse`: dispatch on the column's `TypeInfo`.
`FixedLen(Int4)` reads a little-endian `i32`; `VarLenSized(Intn, 4)` reads
a length-prefix byte that `assert_eq!` requires to equal 4 (a panic when
it does not) and then a little-endian `i32`; every other combination hits
`panic!("unsupported fixed type decoding: ...")` or `unimplemented!()`. -/
def ColumnData.parse (trans : TdsTransport) (meta : BaseMetaDataColumn) :
    Except Failure (ColumnData × TdsTransport) :=
  match meta.ty with
  | TypeInfo.fixedLen fixed_ty =>
    match fixed_ty with
    | FixedLenType.int4 =>
      match trans.read_i32 with
      | .error e => .error e
      | .ok (v, trans) => .ok (ColumnData.i32 v, trans)
    | _ => .error (.panicked "unsupported fixed type decoding")
  | TypeInfo.varLenSized ty len =>
    match ty, len with
    | VarLenType.intn, 4 =>
      match trans.read_u8 with
      | .error e => .error e
      | .ok (b, trans) =>
        if b = 4 then
          match trans.read_i32 with
          | .error e => .error e
          | .ok (v, trans) => .ok (ColumnData.i32 v, trans)
        else .error (.panicked "assertion failed: left == right")
    | _, _ => .error (.panicked "not implemented")

/-- Embedding of `impl FromColumnData for i32`: extract the integer
variant or fail with a conversion error. -/
def from_column_data_i32 : ColumnData → Except Failure Int
  | ColumnData.i32 v => .ok v
  | _ => .error (.conversion "cannot interpret the given column data as an i32 value")

/-- Embedding of `impl ToColumnData for i32`: total wrapping of an
integer into the `I32` variant. -/
def to_column_data_i32 (v : Int) : ColumnData :=
  ColumnData.i32 v

/-- Modelled from the spec: the outbound byte sink (`Cursor<Vec<u8>>`
plus the bounded per-call room of the non-blocking sink): the bytes
written so far and the capacity remaining for the current call. -/
structure Sink where
  data : List Nat
  cap : Nat
deriving DecidableEq, Repr

/-- Modelled from the spec: `target.write_u8` on the cursor.  The cursor
write itself is infallible; we count the byte against the per-call
capacity, saturating at zero. -/
def Sink.write_u8 (target : Sink) (b : Nat) : Sink :=
  ⟨target.data ++ [b], target.cap - 1⟩

/-- Modelled from the spec: `transport::write_bytes_fragment`
(`transport.rs` is not among the sources).  It writes the bytes of the
field `bytes` from the intra-field offset `last_pos` on, limited by the
remaining sink capacity, and returns the sink together with
(bytes-still-pending, bytes-written-this-call), as section 6 of the spec
describes. -/
def write_bytes_fragment (target : Sink) (bytes : List Nat) (last_pos : Nat) :
    Sink × Nat × Nat :=
  let rem := bytes.drop last_pos
  let w := min target.cap rem.length
  (⟨target.data ++ rem.take w, target.cap - w⟩, rem.length - w, w)

/-- Little-endian bytes of a 16-bit value. -/
def u16le (n : Nat) : List Nat :=
  [n % 256, n / 256 % 256]

/-- Modelled from the spec: `transport::write_u16_fragment::<LittleEndian>`,
the little-endian 16-bit fragment writer of section 6 of the spec. -/
def write_u16_fragment (target : Sink) (value : Nat) (last_pos : Nat) :
    Sink × Nat × Nat :=
  write_bytes_fragment target (u16le value) last_pos

/-- UTF-16 little-endian code units of one character (a surrogate pair
for characters beyond the basic multilingual plane). -/
def utf16Char (c : Char) : List Nat :=
  if c.toNat < 65536 then u16le c.toNat
  else u16le (55296 + (c.toNat - 65536) / 1024) ++ u16le (56320 + (c.toNat - 65536) % 1024)

/-- UTF-16 little-endian encoding of a string. -/
def utf16le (s : String) : List Nat :=
  s.data.foldr (fun c acc => utf16Char c ++ acc) []

/-- Modelled from the spec: `transport::write_varchar_fragment`, the
encoded-character-span fragment writer of section 6 of the spec; the
encoded span is the UTF-16 little-endian encoding of the string. -/
def write_varchar_fragment (target : Sink) (s : String) (last_pos : Nat) :
    Sink × Nat × Nat :=
  write_bytes_fragment target (utf16le s) last_pos

/-- Little-endian bytes of a 32-bit unsigned value. -/
def u32le (u : Nat) : List Nat :=
  [u % 256, u / 256 % 256, u / 65536 % 256, u / 16777216 % 256]

/-- Little-endian bytes of an `i32`, `LittleEndian::write_i32`
(two's complement: the value is reduced modulo 2^32). -/
def toLE32 (v : Int) : List Nat :=
  u32le (v % 4294967296).toNat

/-- Embedding of the payload stage of the string arm of
`ColumnData::serialize` (`if state >= 10 { ... }` followed by the final
`Ok(None)`): write the encoded string from intra-field offset
`state - 10` on. -/
def strPayload (s : String) (target : Sink) (state : Nat) :
    Except Failure (Sink × Option Nat) :=
  if 10 ≤ state then
    let r := write_varchar_fragment target s (state - 10)
    if 0 < r.2.1 then .ok (r.1, some (state + r.2.2)) else .ok (r.1, none)
  else .ok (target, none)

/-- Embedding of the body-length stage of the string arm of
`ColumnData::serialize` (`if state < 10 { ... }`): write the 16-bit
little-endian value `2*str_.len() as u16`, which by cast precedence is
`2 * (str_.len() as u16)` with wrapping 16-bit arithmetic, then fall
through to the payload stage with `state = 10`. -/
def strBodyLength (s : String) (target : Sink) (state : Nat) :
    Except Failure (Sink × Option Nat) :=
  if state < 10 then
    let r := write_u16_fragment target (2 * (s.utf8ByteSize % 65536) % 65536) (state - 8)
    if 0 < r.2.1 then .ok (r.1, some (state + r.2.2)) else strPayload s r.1 10
  else strPayload s target state

/-- Embedding of the collation stage of the string arm of
`ColumnData::serialize` (`if state < 8 { ... }`): write the hardcoded
zero-filled five-byte collation, then fall through with `state = 8`. -/
def strCollation (s : String) (target : Sink) (state : Nat) :
    Except Failure (Sink × Option Nat) :=
  if state < 8 then
    let r := write_bytes_fragment target [0, 0, 0, 0, 0] (state - 3)
    if 0 < r.2.1 then .ok (r.1, some (state + r.2.2)) else strBodyLength s r.1 8
  else strBodyLength s target state

/-- Embedding of the type-length stage of the string arm of
`ColumnData::serialize` (`if state < 3 { ... }`): compute
`length = 2*str_.len()` (`str_.len()` is the UTF-8 byte length of the
string), panic via `assert!(length < u16::max_value() as usize)` when the
bound fails, write the value as a little-endian `u16` (the `as u16` cast
reduces it modulo 2^16), then fall through with `state = 3`. -/
def strTypeLength (s : String) (target : Sink) (state : Nat) :
    Except Failure (Sink × Option Nat) :=
  if state < 3 then
    let length := 2 * s.utf8ByteSize
    if length < 65535 then
      let r := write_u16_fragment target (length % 65536) (state - 1)
      if 0 < r.2.1 then .ok (r.1, some (state + r.2.2)) else strCollation s r.1 3
    else .error (.panicked "assertion failed: length < u16::max_value() as usize")
  else strCollation s target state

/-- Embedding of `ColumnData::serialize`.  The integer arm writes the
seven-byte shape `[Intn tag, 4, 4, little-endian value]` through the
fragment writer and reports the new cumulative offset when bytes are
left.  The string arm writes the NVarchar tag when starting fresh, sets
`state = max(last_pos, 1)` and runs the staged writes.  Any other
variant hits `unimplemented!()`. -/
def ColumnData.serialize (v : ColumnData) (target : Sink) (last_pos : Nat) :
    Except Failure (Sink × Option Nat) :=
  match v with
  | ColumnData.i32 val =>
    let bytes := [0x26, 4, 4] ++ toLE32 val
    let r := write_bytes_fragment target bytes last_pos
    if 0 < r.2.1 then .ok (r.1, some (last_pos + r.2.2)) else .ok (r.1, none)
  | ColumnData.str s =>
    let target := if last_pos = 0 then target.write_u8 0xE7 else target
    strTypeLength s target (max last_pos 1)
  | ColumnData.bstring _ => .error (.panicked "not implemented")

/-- Modelled from the spec: the caller-owned retry loop of sections 4.4
and 5 of the spec.  Each list entry is the sink capacity granted to one
`serialize` call; the returned resumption offset is threaded into the
next call and the written bytes persist in the sink.  The run stops at
the terminal `None`, at an error, or when the capacity schedule is
exhausted (returning the current offset). -/
def runSerialize (v : ColumnData) : List Nat → Sink → Nat → Except Failure (Sink × Option Nat)
  | [], sink, last_pos => .ok (sink, some last_pos)
  | cap :: caps, sink, last_pos =>
    match v.serialize ⟨sink.data, cap⟩ last_pos with
    | .error e => .error e
    | .ok (sink, none) => .ok (sink, none)
    | .ok (sink, some n) => runSerialize v caps sink n

/-- Complete wire encoding of a supported value: the byte sequence a
completed `serialize` run leaves in the sink. -/
def wireBytes : ColumnData → List Nat
  | ColumnData.i32 val => [0x26, 4, 4] ++ toLE32 val
  | ColumnData.str s =>
      [0xE7] ++ u16le (2 * s.utf8ByteSize) ++ [0, 0, 0, 0, 0]
        ++ u16le (2 * s.utf8ByteSize) ++ utf16le s
  | ColumnData.bstring _ => []

/-- The variants `serialize` supports at all (integer and string). -/
def ColumnData.supported : ColumnData → Bool
  | ColumnData.bstring _ => false
  | _ => true

/-- The values `serialize` can encode to completion: any integer, and
strings whose doubled UTF-8 byte length stays under the 16-bit bound. -/
def ColumnData.encodable : ColumnData → Bool
  | ColumnData.i32 _ => true
  | ColumnData.str s => 2 * s.utf8ByteSize < 65535
  | ColumnData.bstring _ => false

/-- Taking `state + w` bytes of a byte sequence decomposed as
`A ++ bs ++ C` extends the first `state` bytes by `w` bytes taken from
inside the middle segment `bs`, as long as the window stays inside it. -/
theorem take_add_seg (A bs C : List Nat) (state w : Nat) (h1 : A.length ≤ state)
    (h2 : state + w ≤ A.length + bs.length) :
    (A ++ bs ++ C).take (state + w) =
      (A ++ bs ++ C).take state ++ (bs.drop (state - A.length)).take w := by
  rw [List.take_add]
  congr 1
  have hA : A.drop state = [] := List.drop_eq_nil_of_le (by omega)
  rw [List.drop_append_eq_append_drop, List.drop_append_eq_append_drop, hA,
    List.nil_append, List.take_append_eq_append_take]
  have hz : w - (bs.drop (state - A.length)).length = 0 := by
    simp [List.length_drop]
    omega
  rw [hz, List.take_zero, List.append_nil]

/-- Behaviour of the fragment writer on a consistent sink: when the sink
already holds a prefix of `state` bytes of `A ++ bs ++ C` and the write
targets the middle segment `bs` at intra-field offset `state - A.length`,
the writer appends the next `min cap rem` bytes of the sequence and
reports the pending and written counts. -/
theorem write_bytes_fragment_spec (A bs C d0 : List Nat) (cap state : Nat)
    (h1 : A.length ≤ state) (h2 : state ≤ A.length + bs.length) :
    write_bytes_fragment ⟨d0 ++ (A ++ bs ++ C).take state, cap⟩ bs (state - A.length) =
      (⟨d0 ++ (A ++ bs ++ C).take (state + min cap (A.length + bs.length - state)),
          cap - min cap (A.length + bs.length - state)⟩,
        A.length + bs.length - state - min cap (A.length + bs.length - state),
        min cap (A.length + bs.length - state)) := by
  have hdl : (bs.drop (state - A.length)).length = A.length + bs.length - state := by
    simp [List.length_drop]
    omega
  have key := take_add_seg A bs C state (min cap (A.length + bs.length - state)) h1 (by omega)
  rw [List.append_assoc] at key
  simp only [write_bytes_fragment, hdl, List.append_assoc, key]

/-- Behaviour of the payload stage from a consistent state: starting at a
cumulative offset `state` in the encoding, it appends further encoding
bytes, ending at some offset `m`, and returns `None` exactly at the end
of the encoding. -/
theorem strPayload_spec (s : String) (d0 : List Nat) (cap state : Nat)
    (h1 : 10 ≤ state) (h2 : state ≤ (wireBytes (ColumnData.str s)).length) :
    ∃ m c, strPayload s ⟨d0 ++ (wireBytes (ColumnData.str s)).take state, cap⟩ state =
        .ok (⟨d0 ++ (wireBytes (ColumnData.str s)).take m, c⟩,
          if m = (wireBytes (ColumnData.str s)).length then none else some m) ∧
      state ≤ m ∧ m ≤ (wireBytes (ColumnData.str s)).length := by
  have hE : wireBytes (ColumnData.str s) =
      ([0xE7] ++ u16le (2 * s.utf8ByteSize) ++ [0, 0, 0, 0, 0] ++ u16le (2 * s.utf8ByteSize))
        ++ utf16le s ++ [] := by
    simp [wireBytes, List.append_assoc]
  have hA : ([0xE7] ++ u16le (2 * s.utf8ByteSize) ++ [0, 0, 0, 0, 0]
      ++ u16le (2 * s.utf8ByteSize)).length = 10 := by
    simp [u16le]
  have hlen : (wireBytes (ColumnData.str s)).length = 10 + (utf16le s).length := by
    rw [hE]
    simp [u16le]
    omega
  have happ := write_bytes_fragment_spec
    ([0xE7] ++ u16le (2 * s.utf8ByteSize) ++ [0, 0, 0, 0, 0] ++ u16le (2 * s.utf8ByteSize))
    (utf16le s) [] d0 cap state (by omega) (by rw [hA]; omega)
  rw [hA] at happ
  rw [← hE] at happ
  have hwle : min cap (10 + (utf16le s).length - state) ≤ 10 + (utf16le s).length - state :=
    Nat.min_le_right _ _
  by_cases hleft :
      0 < 10 + (utf16le s).length - state - min cap (10 + (utf16le s).length - state)
  · refine ⟨state + min cap (10 + (utf16le s).length - state),
      cap - min cap (10 + (utf16le s).length - state), ?_, by omega, by omega⟩
    simp only [strPayload, write_varchar_fragment, if_pos h1, happ]
    rw [if_pos hleft, if_neg (by omega)]
  · refine ⟨state + min cap (10 + (utf16le s).length - state),
      cap - min cap (10 + (utf16le s).length - state), ?_, by omega, by omega⟩
    simp only [strPayload, write_varchar_fragment, if_pos h1, happ]
    rw [if_neg hleft, if_pos (by omega)]

/-- Behaviour of the body-length stage from a consistent state, for a
string whose doubled UTF-8 byte length is under the 16-bit bound. -/
theorem strBodyLength_spec (s : String) (d0 : List Nat) (cap state : Nat)
    (hb : 2 * s.utf8ByteSize < 65535) (h1 : 8 ≤ state)
    (h2 : state ≤ (wireBytes (ColumnData.str s)).length) :
    ∃ m c, strBodyLength s ⟨d0 ++ (wireBytes (ColumnData.str s)).take state, cap⟩ state =
        .ok (⟨d0 ++ (wireBytes (ColumnData.str s)).take m, c⟩,
          if m = (wireBytes (ColumnData.str s)).length then none else some m) ∧
      state ≤ m ∧ m ≤ (wireBytes (ColumnData.str s)).length := by
  have hlen : (wireBytes (ColumnData.str s)).length = 10 + (utf16le s).length := by
    simp [wireBytes, u16le]
    omega
  by_cases hst : state < 10
  case neg =>
    obtain ⟨m, c, hP, hm1, hm2⟩ := strPayload_spec s d0 cap state (by omega) h2
    exact ⟨m, c, by simpa only [strBodyLength, if_neg hst] using hP, hm1, hm2⟩
  case pos =>
    have hE : wireBytes (ColumnData.str s) =
        ([0xE7] ++ u16le (2 * s.utf8ByteSize) ++ [0, 0, 0, 0, 0])
          ++ u16le (2 * s.utf8ByteSize) ++ utf16le s := by
      simp [wireBytes, List.append_assoc]
    have hA : ([0xE7] ++ u16le (2 * s.utf8ByteSize) ++ [0, 0, 0, 0, 0]).length = 8 := by
      simp [u16le]
    have hbs : (u16le (2 * s.utf8ByteSize)).length = 2 := by
      simp [u16le]
    have hval : 2 * (s.utf8ByteSize % 65536) % 65536 = 2 * s.utf8ByteSize := by
      have hx : s.utf8ByteSize % 65536 = s.utf8ByteSize := Nat.mod_eq_of_lt (by omega)
      rw [hx]
      exact Nat.mod_eq_of_lt (by omega)
    have happ := write_bytes_fragment_spec
      ([0xE7] ++ u16le (2 * s.utf8ByteSize) ++ [0, 0, 0, 0, 0])
      (u16le (2 * s.utf8ByteSize)) (utf16le s) d0 cap state
      (by rw [hA]; omega) (by rw [hA, hbs]; omega)
    rw [hA, hbs, ← hE] at happ
    norm_num at happ
    by_cases hleft : 0 < 10 - state - min cap (10 - state)
    · refine ⟨state + min cap (10 - state), cap - min cap (10 - state), ?_, by omega, by omega⟩
      simp only [strBodyLength, write_u16_fragment, if_pos hst, hval, happ]
      rw [if_pos hleft, if_neg (by omega)]
    · obtain ⟨m, c, hP, hm1, hm2⟩ :=
        strPayload_spec s d0 (cap - min cap (10 - state)) 10 (by omega) (by omega)
      refine ⟨m, c, ?_, by omega, by omega⟩
      simp only [strBodyLength, write_u16_fragment, if_pos hst, hval, happ]
      rw [if_neg hleft, show state + min cap (10 - state) = 10 from by omega, hP]

/-- Behaviour of the collation stage from a consistent state. -/
theorem strCollation_spec (s : String) (d0 : List Nat) (cap state : Nat)
    (hb : 2 * s.utf8ByteSize < 65535) (h1 : 3 ≤ state)
    (h2 : state ≤ (wireBytes (ColumnData.str s)).length) :
    ∃ m c, strCollation s ⟨d0 ++ (wireBytes (ColumnData.str s)).take state, cap⟩ state =
        .ok (⟨d0 ++ (wireBytes (ColumnData.str s)).take m, c⟩,
          if m = (wireBytes (ColumnData.str s)).length then none else some m) ∧
      state ≤ m ∧ m ≤ (wireBytes (ColumnData.str s)).length := by
  have hlen : (wireBytes (ColumnData.str s)).length = 10 + (utf16le s).length := by
    simp [wireBytes, u16le]
    omega
  by_cases hst : state < 8
  case neg =>
    obtain ⟨m, c, hP, hm1, hm2⟩ := strBodyLength_spec s d0 cap state hb (by omega) h2
    exact ⟨m, c, by simpa only [strCollation, if_neg hst] using hP, hm1, hm2⟩
  case pos =>
    have hE : wireBytes (ColumnData.str s) =
        ([0xE7] ++ u16le (2 * s.utf8ByteSize)) ++ ([0, 0, 0, 0, 0] : List Nat)
          ++ (u16le (2 * s.utf8ByteSize) ++ utf16le s) := by
      simp [wireBytes, List.append_assoc]
    have hA : ([0xE7] ++ u16le (2 * s.utf8ByteSize)).length = 3 := by
      simp [u16le]
    have hbs : ([0, 0, 0, 0, 0] : List Nat).length = 5 := rfl
    have happ := write_bytes_fragment_spec
      ([0xE7] ++ u16le (2 * s.utf8ByteSize)) ([0, 0, 0, 0, 0] : List Nat)
      (u16le (2 * s.utf8ByteSize) ++ utf16le s) d0 cap state
      (by rw [hA]; omega) (by rw [hA, hbs]; omega)
    rw [hA, hbs, ← hE] at happ
    norm_num at happ
    by_cases hleft : 0 < 8 - state - min cap (8 - state)
    · refine ⟨state + min cap (8 - state), cap - min cap (8 - state), ?_, by omega, by omega⟩
      simp only [strCollation, if_pos hst, happ]
      rw [if_pos hleft, if_neg (by omega)]
    · obtain ⟨m, c, hP, hm1, hm2⟩ :=
        strBodyLength_spec s d0 (cap - min cap (8 - state)) 8 hb (by omega) (by omega)
      refine ⟨m, c, ?_, by omega, by omega⟩
      simp only [strCollation, if_pos hst, happ]
      rw [if_neg hleft, show state + min cap (8 - state) = 8 from by omega, hP]

/-- Behaviour of the type-length stage from a consistent state: under the
16-bit bound the assertion passes and the staged writes proceed. -/
theorem strTypeLength_spec (s : String) (d0 : List Nat) (cap state : Nat)
    (hb : 2 * s.utf8ByteSize < 65535) (h1 : 1 ≤ state)
    (h2 : state ≤ (wireBytes (ColumnData.str s)).length) :
    ∃ m c, strTypeLength s ⟨d0 ++ (wireBytes (ColumnData.str s)).take state, cap⟩ state =
        .ok (⟨d0 ++ (wireBytes (ColumnData.str s)).take m, c⟩,
          if m = (wireBytes (ColumnData.str s)).length then none else some m) ∧
      state ≤ m ∧ m ≤ (wireBytes (ColumnData.str s)).length := by
  have hlen : (wireBytes (ColumnData.str s)).length = 10 + (utf16le s).length := by
    simp [wireBytes, u16le]
    omega
  by_cases hst : state < 3
  case neg =>
    obtain ⟨m, c, hP, hm1, hm2⟩ := strCollation_spec s d0 cap state hb (by omega) h2
    exact ⟨m, c, by simpa only [strTypeLength, if_neg hst] using hP, hm1, hm2⟩
  case pos =>
    have hE : wireBytes (ColumnData.str s) =
        ([0xE7] : List Nat) ++ u16le (2 * s.utf8ByteSize)
          ++ (([0, 0, 0, 0, 0] : List Nat) ++ u16le (2 * s.utf8ByteSize) ++ utf16le s) := by
      simp [wireBytes, List.append_assoc]
    have hA : (([0xE7] : List Nat)).length = 1 := rfl
    have hbs : (u16le (2 * s.utf8ByteSize)).length = 2 := by
      simp [u16le]
    have hval : 2 * s.utf8ByteSize % 65536 = 2 * s.utf8ByteSize :=
      Nat.mod_eq_of_lt (by omega)
    have happ := write_bytes_fragment_spec
      ([0xE7] : List Nat) (u16le (2 * s.utf8ByteSize))
      (([0, 0, 0, 0, 0] : List Nat) ++ u16le (2 * s.utf8ByteSize) ++ utf16le s) d0 cap state
      (by rw [hA]; omega) (by rw [hA, hbs]; omega)
    rw [hA, hbs, ← hE] at happ
    norm_num at happ
    by_cases hleft : 0 < 3 - state - min cap (3 - state)
    · refine ⟨state + min cap (3 - state), cap - min cap (3 - state), ?_, by omega, by omega⟩
      simp only [strTypeLength, write_u16_fragment, if_pos hst, if_pos hb, hval, happ]
      rw [if_pos hleft, if_neg (by omega)]
    · obtain ⟨m, c, hP, hm1, hm2⟩ :=
        strCollation_spec s d0 (cap - min cap (3 - state)) 3 hb (by omega) (by omega)
      refine ⟨m, c, ?_, by omega, by omega⟩
      simp only [strTypeLength, write_u16_fragment, if_pos hst, if_pos hb, hval, happ]
      rw [if_neg hleft, show state + min cap (3 - state) = 3 from by omega, hP]

/-- Behaviour of one `serialize` call on the integer variant from a
consistent state: the sink gains the next `min cap rem` bytes of the
seven-byte wire shape, the returned offset is the new cumulative byte
count, and `None` is returned exactly on completion. -/
theorem serialize_i32_spec (z : Int) (d0 : List Nat) (cap lp : Nat)
    (hlp : lp ≤ (wireBytes (ColumnData.i32 z)).length) :
    ∃ m c, ColumnData.serialize (ColumnData.i32 z)
          ⟨d0 ++ (wireBytes (ColumnData.i32 z)).take lp, cap⟩ lp =
        .ok (⟨d0 ++ (wireBytes (ColumnData.i32 z)).take m, c⟩,
          if m = (wireBytes (ColumnData.i32 z)).length then none else some m) ∧
      lp ≤ m ∧ m ≤ (wireBytes (ColumnData.i32 z)).length := by
  have hlen : (wireBytes (ColumnData.i32 z)).length = 7 := by
    simp [wireBytes, toLE32, u32le]
  have hE : wireBytes (ColumnData.i32 z) =
      ([] : List Nat) ++ ([0x26, 4, 4] ++ toLE32 z) ++ ([] : List Nat) := by
    simp [wireBytes]
  have htl : (toLE32 z).length = 4 := by
    simp [toLE32, u32le]
  have hbs : ([0x26, 4, 4] ++ toLE32 z).length = 7 := by
    simp [toLE32, u32le]
  have happ := write_bytes_fragment_spec ([] : List Nat) ([0x26, 4, 4] ++ toLE32 z)
    ([] : List Nat) d0 cap lp (by simp) (by simp [htl]; omega)
  rw [hbs, ← hE] at happ
  simp only [List.length_nil, Nat.sub_zero, Nat.zero_add] at happ
  by_cases hleft : 0 < 7 - lp - min cap (7 - lp)
  · refine ⟨lp + min cap (7 - lp), cap - min cap (7 - lp), ?_, by omega, by omega⟩
    simp only [ColumnData.serialize, happ]
    rw [if_pos hleft, if_neg (by omega)]
  · refine ⟨lp + min cap (7 - lp), cap - min cap (7 - lp), ?_, by omega, by omega⟩
    simp only [ColumnData.serialize, happ]
    rw [if_neg hleft, if_pos (by omega)]

/-- Behaviour of one `serialize` call on the string variant from a
consistent state, for a string under the 16-bit length bound: the fresh
call writes the type tag unconditionally and hands over to the staged
writes; a resumed call re-enters the stage its offset falls into. -/
theorem serialize_str_spec (s : String) (d0 : List Nat) (cap lp : Nat)
    (hb : 2 * s.utf8ByteSize < 65535)
    (hlp : lp ≤ (wireBytes (ColumnData.str s)).length) :
    ∃ m c, ColumnData.serialize (ColumnData.str s)
          ⟨d0 ++ (wireBytes (ColumnData.str s)).take lp, cap⟩ lp =
        .ok (⟨d0 ++ (wireBytes (ColumnData.str s)).take m, c⟩,
          if m = (wireBytes (ColumnData.str s)).length then none else some m) ∧
      lp ≤ m ∧ m ≤ (wireBytes (ColumnData.str s)).length := by
  have hlen : (wireBytes (ColumnData.str s)).length = 10 + (utf16le s).length := by
    simp [wireBytes, u16le]
    omega
  by_cases h0 : lp = 0
  · subst h0
    have htag : (d0 ++ (wireBytes (ColumnData.str s)).take 0) ++ [0xE7] =
        d0 ++ (wireBytes (ColumnData.str s)).take 1 := by
      simp [wireBytes]
    obtain ⟨m, c, hT, hm1, hm2⟩ :=
      strTypeLength_spec s d0 (cap - 1) 1 hb (le_refl 1) (by omega)
    refine ⟨m, c, ?_, by omega, hm2⟩
    have hstep : ColumnData.serialize (ColumnData.str s)
        ⟨d0 ++ (wireBytes (ColumnData.str s)).take 0, cap⟩ 0 =
        strTypeLength s
          ⟨(d0 ++ (wireBytes (ColumnData.str s)).take 0) ++ [0xE7], cap - 1⟩ 1 := rfl
    rw [hstep, htag, hT]
  · have h1 : 1 ≤ lp := Nat.one_le_iff_ne_zero.mpr h0
    have hmax : max lp 1 = lp := by omega
    obtain ⟨m, c, hT, hm1, hm2⟩ := strTypeLength_spec s d0 cap lp hb h1 hlp
    refine ⟨m, c, ?_, hm1, hm2⟩
    simp only [ColumnData.serialize, if_neg h0, hmax]
    exact hT

/-- Behaviour of one `serialize` call on any encodable value from a
consistent state. -/
theorem serialize_step_spec (v : ColumnData) (hv : v.encodable = true) (d0 : List Nat)
    (cap lp : Nat) (hlp : lp ≤ (wireBytes v).length) :
    ∃ m c, ColumnData.serialize v ⟨d0 ++ (wireBytes v).take lp, cap⟩ lp =
        .ok (⟨d0 ++ (wireBytes v).take m, c⟩,
          if m = (wireBytes v).length then none else some m) ∧
      lp ≤ m ∧ m ≤ (wireBytes v).length := by
  cases v with
  | i32 z => exact serialize_i32_spec z d0 cap lp hlp
  | str s =>
    have hb : 2 * s.utf8ByteSize < 65535 := by
      simpa [ColumnData.encodable] using hv
    exact serialize_str_spec s d0 cap lp hb hlp
  | bstring b => simp [ColumnData.encodable] at hv

/-- Invariant of the retry loop: starting from a sink holding the first
`lp` bytes of the wire encoding, every successful outcome leaves the sink
holding a prefix of the encoding, with `Some n` reporting exactly the
cumulative offset `n ≥ lp` and `None` marking the complete encoding. -/
theorem runSerialize_spec (v : ColumnData) (hv : v.encodable = true) :
    ∀ (caps : List Nat) (d0 : List Nat) (c0 lp : Nat) (sink : Sink) (r : Option Nat),
    lp ≤ (wireBytes v).length →
    runSerialize v caps ⟨d0 ++ (wireBytes v).take lp, c0⟩ lp = .ok (sink, r) →
    ∃ m, lp ≤ m ∧ m ≤ (wireBytes v).length ∧ sink.data = d0 ++ (wireBytes v).take m ∧
      (r = none → m = (wireBytes v).length) ∧ (∀ n, r = some n → n = m) := by
  intro caps
  induction caps with
  | nil =>
    intro d0 c0 lp sink r hlp hrun
    simp only [runSerialize, Except.ok.injEq, Prod.mk.injEq] at hrun
    obtain ⟨hs, hr⟩ := hrun
    subst hs
    subst hr
    exact ⟨lp, le_refl lp, hlp, rfl, by simp, fun n h => by cases h; rfl⟩
  | cons cap caps ih =>
    intro d0 c0 lp sink r hlp hrun
    obtain ⟨m1, c1, hs, hm1, hm2⟩ := serialize_step_spec v hv d0 cap lp hlp
    simp only [runSerialize] at hrun
    rw [hs] at hrun
    by_cases hm : m1 = (wireBytes v).length
    · rw [if_pos hm] at hrun
      simp only [Except.ok.injEq, Prod.mk.injEq] at hrun
      obtain ⟨hsk, hr⟩ := hrun
      subst hsk
      subst hr
      exact ⟨m1, hm1, hm2, rfl, fun _ => hm, fun n h => by cases h⟩
    · rw [if_neg hm] at hrun
      obtain ⟨m, hma, hmb, hdata, hnone, hsome⟩ := ih d0 c1 m1 sink r hm2 hrun
      exact ⟨m, by omega, hmb, hdata, hnone, hsome⟩

/-- A completed run from a fresh sink leaves exactly the wire encoding in
the sink. -/
theorem runSerialize_complete (v : ColumnData) (hv : v.encodable = true)
    (caps : List Nat) (c0 : Nat) (sink : Sink)
    (h : runSerialize v caps ⟨[], c0⟩ 0 = .ok (sink, none)) :
    sink.data = wireBytes v := by
  have h0 : runSerialize v caps ⟨[] ++ (wireBytes v).take 0, c0⟩ 0 = .ok (sink, none) := by
    simpa using h
  obtain ⟨m, _, _, hdata, hnone, _⟩ :=
    runSerialize_spec v hv caps [] c0 0 sink none (Nat.zero_le _) h0
  rw [hdata, hnone rfl]
  simp [List.take_length]

/-- A run of the string arm started from offset 0 can never complete when
the doubled UTF-8 byte length breaks the 16-bit bound: the first call
panics in the type-length stage. -/
theorem runSerialize_str_overflow (s : String) (hb : ¬ 2 * s.utf8ByteSize < 65535)
    (caps : List Nat) (c0 : Nat) (sink : Sink) :
    runSerialize (ColumnData.str s) caps ⟨[], c0⟩ 0 ≠ .ok (sink, none) := by
  cases caps with
  | nil => simp [runSerialize]
  | cons cap caps =>
    simp [runSerialize, ColumnData.serialize, Sink.write_u8, strTypeLength, hb]

/-- Reading back four little-endian bytes of an `i32` recovers the value
within the 32-bit signed range. -/
theorem read_i32_toLE32 (z : Int) (rest : List Nat)
    (h1 : -2147483648 ≤ z) (h2 : z < 2147483648) :
    TdsTransport.read_i32 ⟨toLE32 z ++ rest⟩ = .ok (z, ⟨rest⟩) := by
  have hN : ((z % 4294967296).toNat : Int) = z % 4294967296 :=
    Int.toNat_of_nonneg (Int.emod_nonneg z (by norm_num))
  have hNlt : (z % 4294967296).toNat < 4294967296 := by
    have := Int.emod_lt_of_pos z (show (0 : Int) < 4294967296 by norm_num)
    omega
  have hdig : (z % 4294967296).toNat % 256 + 256 * ((z % 4294967296).toNat / 256 % 256)
      + 65536 * ((z % 4294967296).toNat / 65536 % 256)
      + 16777216 * ((z % 4294967296).toNat / 16777216 % 256) = (z % 4294967296).toNat := by
    omega
  have hif : (if (z % 4294967296).toNat < 2147483648 then ((z % 4294967296).toNat : Int)
      else ((z % 4294967296).toNat : Int) - 4294967296) = z := by
    split_ifs with h
    · omega
    · omega
  simp only [toLE32, u32le, List.cons_append, List.nil_append, TdsTransport.read_i32,
    hdig, hif]

/-- UTF-8 byte size of a string built from a cons cell. -/
theorem utf8ByteSize_cons (c : Char) (cs : List Char) :
    (String.mk (c :: cs)).utf8ByteSize = (String.mk cs).utf8ByteSize + c.utf8Size := by
  simp [String.utf8ByteSize]

/-- UTF-8 byte size of an all-ASCII replicated string. -/
theorem utf8ByteSize_replicate_a (n : Nat) :
    (String.mk (List.replicate n 'a')).utf8ByteSize = n := by
  induction n with
  | zero => rfl
  | succ k ih =>
    rw [List.replicate_succ, utf8ByteSize_cons, ih]
    rfl

/-- C1: serializing `ColumnData::I32(v)` to completion across any
capacity schedule and then decoding the resulting byte sequence — the
descriptor decoder consumes the leading `Intn, 4` descriptor producing
exactly `TypeInfo::VarLenSized(Intn, 4)`, and `ColumnData::parse` primed
with that `TypeInfo` consumes the rest — yields exactly `v`. -/
theorem C1_i32_roundtrip (z : Int) (caps : List Nat) (sink : Sink)
    (h1 : -2147483648 ≤ z) (h2 : z < 2147483648)
    (hrun : runSerialize (ColumnData.i32 z) caps ⟨[], 0⟩ 0 = .ok (sink, none)) :
    ∃ rest, TypeInfo.parse ⟨sink.data⟩ = .ok (TypeInfo.varLenSized VarLenType.intn 4, rest) ∧
      ColumnData.parse rest ⟨TypeInfo.varLenSized VarLenType.intn 4⟩ =
        .ok (ColumnData.i32 z, ⟨[]⟩) := by
  have hdata : sink.data = wireBytes (ColumnData.i32 z) :=
    runSerialize_complete (ColumnData.i32 z) rfl caps 0 sink hrun
  refine ⟨⟨4 :: toLE32 z⟩, ?_, ?_⟩
  · rw [hdata]
    rfl
  · have hread := read_i32_toLE32 z [] h1 h2
    rw [List.append_nil] at hread
    have hp : ColumnData.parse ⟨4 :: toLE32 z⟩ ⟨TypeInfo.varLenSized VarLenType.intn 4⟩ =
        match TdsTransport.read_i32 ⟨toLE32 z⟩ with
        | .error e => .error e
        | .ok (v, t) => .ok (ColumnData.i32 v, t) := rfl
    rw [hp, hread]

/-- Witness for C1 at the value 42 with a single 100-byte-capacity call. -/
theorem C1_i32_roundtrip_witness :
    ∃ rest, TypeInfo.parse ⟨(⟨[0x26, 4, 4, 42, 0, 0, 0], 93⟩ : Sink).data⟩ =
        .ok (TypeInfo.varLenSized VarLenType.intn 4, rest) ∧
      ColumnData.parse rest ⟨TypeInfo.varLenSized VarLenType.intn 4⟩ =
        .ok (ColumnData.i32 42, ⟨[]⟩) :=
  C1_i32_roundtrip 42 [100] ⟨[0x26, 4, 4, 42, 0, 0, 0], 93⟩ (by norm_num) (by norm_num)
    (by decide)

/-- C2: for every supported value (`I32` or `String`), any two capacity
schedules whose runs both complete leave identical final byte sequences
in the sink; in particular chopping capacity one byte per call produces
the same bytes as one unlimited-capacity call. -/
theorem C2_fragmentation_invariance (v : ColumnData) (hv : v.supported = true)
    (caps1 caps2 : List Nat) (s1 s2 : Sink)
    (h1 : runSerialize v caps1 ⟨[], 0⟩ 0 = .ok (s1, none))
    (h2 : runSerialize v caps2 ⟨[], 0⟩ 0 = .ok (s2, none)) :
    s1.data = s2.data := by
  by_cases he : v.encodable = true
  · rw [runSerialize_complete v he caps1 0 s1 h1, runSerialize_complete v he caps2 0 s2 h2]
  · cases v with
    | i32 z => exact absurd rfl he
    | bstring b => simp [ColumnData.supported] at hv
    | str s =>
      have hb : ¬ 2 * s.utf8ByteSize < 65535 := by
        intro hcon
        exact he (by simpa [ColumnData.encodable] using hcon)
      exact absurd h1 (runSerialize_str_overflow s hb caps1 0 s1)

/-- Witness for C2: one byte per call versus one unlimited call, for the
integer 5. -/
theorem C2_fragmentation_invariance_witness :
    runSerialize (ColumnData.i32 5) [1, 1, 1, 1, 1, 1, 1] ⟨[], 0⟩ 0 =
        .ok (⟨[0x26, 4, 4, 5, 0, 0, 0], 0⟩, none) ∧
      runSerialize (ColumnData.i32 5) [7] ⟨[], 0⟩ 0 =
        .ok (⟨[0x26, 4, 4, 5, 0, 0, 0], 0⟩, none) ∧
      (⟨[0x26, 4, 4, 5, 0, 0, 0], 0⟩ : Sink).data =
        (⟨[0x26, 4, 4, 5, 0, 0, 0], 0⟩ : Sink).data :=
  ⟨by decide, by decide,
    C2_fragmentation_invariance (ColumnData.i32 5) (by decide) [1, 1, 1, 1, 1, 1, 1] [7]
      ⟨[0x26, 4, 4, 5, 0, 0, 0], 0⟩ ⟨[0x26, 4, 4, 5, 0, 0, 0], 0⟩ (by decide) (by decide)⟩

/-- C3: serializing `ColumnData::I32(42)` to completion yields exactly
the seven bytes `[0x26, 0x04, 0x04, 0x2A, 0x00, 0x00, 0x00]`, regardless
of how the calls are fragmented. -/
theorem C3_encode_42 (caps : List Nat) (sink : Sink)
    (h : runSerialize (ColumnData.i32 42) caps ⟨[], 0⟩ 0 = .ok (sink, none)) :
    sink.data = [0x26, 0x04, 0x04, 0x2A, 0x00, 0x00, 0x00] := by
  rw [runSerialize_complete (ColumnData.i32 42) rfl caps 0 sink h]
  decide

/-- Witness for C3 with the capacity schedule 3 bytes then 4 bytes. -/
theorem C3_encode_42_witness :
    runSerialize (ColumnData.i32 42) [3, 4] ⟨[], 0⟩ 0 =
        .ok (⟨[0x26, 4, 4, 42, 0, 0, 0], 0⟩, none) ∧
      (⟨[0x26, 4, 4, 42, 0, 0, 0], 0⟩ : Sink).data =
        [0x26, 0x04, 0x04, 0x2A, 0x00, 0x00, 0x00] :=
  ⟨by decide, C3_encode_42 [3, 4] ⟨[0x26, 4, 4, 42, 0, 0, 0], 0⟩ (by decide)⟩

/-- C4 counterexample: for the one-character string "é" (two UTF-8
bytes), the completed encoding carries the 2-byte little-endian value 4
at cumulative offsets 1-2, not 2 = 2 × character count, so the claimed
"2 times the character count" length field is false on the code. -/
theorem C4_counterexample :
    runSerialize (ColumnData.str "é") [100] ⟨[], 0⟩ 0 =
        .ok (⟨[0xE7, 4, 0, 0, 0, 0, 0, 0, 4, 0, 0xE9, 0], 88⟩, none) ∧
      (([0xE7, 4, 0, 0, 0, 0, 0, 0, 4, 0, 0xE9, 0] : List Nat).drop 1).take 2 = [4, 0] ∧
      u16le (2 * "é".length) = [2, 0] ∧
      ([4, 0] : List Nat) ≠ [2, 0] :=
  ⟨by decide, by decide, by decide, by decide⟩

/-- C4 (amended): for every string `s`, a completed serialization of
`ColumnData::String(s)` carries at cumulative offsets 1-2 and again at
offsets 8-9 the 2-byte little-endian value `2 × UTF-8 byte length of s`
(which equals 2 × character count exactly for ASCII strings), and the
encode fails with an assertion panic whenever that doubled byte length
reaches the 16-bit bound 65535. -/
theorem C4_amended_string_length_fields :
    (∀ (s : String) (caps : List Nat) (sink : Sink), 2 * s.utf8ByteSize < 65535 →
      runSerialize (ColumnData.str s) caps ⟨[], 0⟩ 0 = .ok (sink, none) →
      sink.data =
        [0xE7] ++ u16le (2 * s.utf8ByteSize) ++ [0, 0, 0, 0, 0]
          ++ u16le (2 * s.utf8ByteSize) ++ utf16le s) ∧
    (∀ (s : String) (cap : Nat) (caps : List Nat), 65535 ≤ 2 * s.utf8ByteSize →
      runSerialize (ColumnData.str s) (cap :: caps) ⟨[], 0⟩ 0 =
        .error (.panicked "assertion failed: length < u16::max_value() as usize")) := by
  constructor
  · intro s caps sink hb hrun
    have he : (ColumnData.str s).encodable = true := by
      simp [ColumnData.encodable]
      omega
    rw [runSerialize_complete (ColumnData.str s) he caps 0 sink hrun]
    simp [wireBytes]
  · intro s cap caps hge
    have hb : ¬ (2 * s.utf8ByteSize < 65535) := by omega
    simp [runSerialize, ColumnData.serialize, Sink.write_u8, strTypeLength, hb]

/-- Witness for C4: the string "Hi" (declared length 4 at offsets 1-2 and
8-9), and a 40000-character string whose doubled length 80000 overflows
the 16-bit bound and panics. -/
theorem C4_amended_string_length_fields_witness :
    (⟨[0xE7, 4, 0, 0, 0, 0, 0, 0, 4, 0, 72, 0, 105, 0], 86⟩ : Sink).data =
        [0xE7] ++ u16le (2 * "Hi".utf8ByteSize) ++ [0, 0, 0, 0, 0]
          ++ u16le (2 * "Hi".utf8ByteSize) ++ utf16le "Hi" ∧
      runSerialize (ColumnData.str (String.mk (List.replicate 40000 'a'))) [100] ⟨[], 0⟩ 0 =
        .error (.panicked "assertion failed: length < u16::max_value() as usize") :=
  ⟨C4_amended_string_length_fields.1 "Hi" [100]
      ⟨[0xE7, 4, 0, 0, 0, 0, 0, 0, 4, 0, 72, 0, 105, 0], 86⟩ (by decide) (by decide),
    C4_amended_string_length_fields.2 (String.mk (List.replicate 40000 'a')) 100 []
      (by rw [utf8ByteSize_replicate_a]; norm_num)⟩

/-- C8: in any resumption run from a fresh sink, a `Some(n)` outcome
means the sink holds exactly the first `n` bytes of the value's wire
encoding, a `None` outcome means it holds the complete encoding, and a
single call started at offset `lp` never reports an offset below `lp`
(the offset is monotone, never rolled back). -/
theorem C8_offset_invariant :
    (∀ (v : ColumnData) (caps : List Nat) (sink : Sink) (n : Nat),
        v.encodable = true →
        runSerialize v caps ⟨[], 0⟩ 0 = .ok (sink, some n) →
        sink.data = (wireBytes v).take n ∧ sink.data.length = n ∧
          n ≤ (wireBytes v).length) ∧
      (∀ (v : ColumnData) (caps : List Nat) (sink : Sink),
        v.encodable = true →
        runSerialize v caps ⟨[], 0⟩ 0 = .ok (sink, none) →
        sink.data = wireBytes v) ∧
      (∀ (v : ColumnData) (cap lp : Nat) (sink : Sink) (r : Option Nat) (n : Nat),
        v.encodable = true → lp ≤ (wireBytes v).length →
        ColumnData.serialize v ⟨(wireBytes v).take lp, cap⟩ lp = .ok (sink, r) →
        r = some n → lp ≤ n) := by
  refine ⟨?_, ?_, ?_⟩
  · intro v caps sink n hv hrun
    have h0 : runSerialize v caps ⟨[] ++ (wireBytes v).take 0, 0⟩ 0 = .ok (sink, some n) := by
      simpa using hrun
    obtain ⟨m, _, hm2, hdata, _, hsome⟩ :=
      runSerialize_spec v hv caps [] 0 0 sink (some n) (Nat.zero_le _) h0
    have hnm : n = m := hsome n rfl
    subst hnm
    refine ⟨by simpa using hdata, ?_, hm2⟩
    rw [hdata]
    simp [List.length_take]
    omega
  · intro v caps sink hv hrun
    exact runSerialize_complete v hv caps 0 sink hrun
  · intro v cap lp sink r n hv hlp hser hr
    obtain ⟨m, c, hs, hm1, hm2⟩ := serialize_step_spec v hv [] cap lp hlp
    rw [List.nil_append] at hs
    rw [hs] at hser
    simp only [Except.ok.injEq, Prod.mk.injEq] at hser
    obtain ⟨hsink, hreq⟩ := hser
    rw [hr] at hreq
    by_cases hm : m = (wireBytes v).length
    · rw [if_pos hm] at hreq
      cases hreq
    · rw [if_neg hm] at hreq
      cases hreq
      omega

/-- Witness for C8: for the integer 5, a 2-byte call leaves exactly the
first 2 bytes at offset 2, a 7-byte run completes with the full encoding,
and a call resumed at offset 2 reports offset 5 which is not below 2. -/
theorem C8_offset_invariant_witness :
    ((⟨[0x26, 4], 0⟩ : Sink).data = (wireBytes (ColumnData.i32 5)).take 2 ∧
        (⟨[0x26, 4], 0⟩ : Sink).data.length = 2 ∧
        2 ≤ (wireBytes (ColumnData.i32 5)).length) ∧
      (⟨[0x26, 4, 4, 5, 0, 0, 0], 0⟩ : Sink).data = wireBytes (ColumnData.i32 5) ∧
      (2 : Nat) ≤ 5 :=
  ⟨C8_offset_invariant.1 (ColumnData.i32 5) [2] ⟨[0x26, 4], 0⟩ 2 (by decide) (by decide),
    C8_offset_invariant.2.1 (ColumnData.i32 5) [7] ⟨[0x26, 4, 4, 5, 0, 0, 0], 0⟩
      (by decide) (by decide),
    C8_offset_invariant.2.2 (ColumnData.i32 5) 3 2 ⟨[0x26, 4, 4, 5, 0], 0⟩ (some 5) 5
      (by decide) (by decide) (by decide) rfl⟩

/-- C10: for every length byte `n` from 0 to 255, `TypeInfo::parse`
applied to the `Intn` tag byte 0x26 followed by `n` succeeds with
`TypeInfo::VarLenSized(Intn, n)` and consumes exactly those two bytes;
the descriptor decoder does not restrict the length to 1, 2, 4 or 8. -/
theorem C10_descriptor_accepts_any_intn_length (n : Nat) (rest : List Nat)
    (_hn : n ≤ 255) :
    TypeInfo.parse ⟨0x26 :: n :: rest⟩ =
      .ok (TypeInfo.varLenSized VarLenType.intn n, ⟨rest⟩) :=
  rfl

/-- Witness for C10 at the length byte 7. -/
theorem C10_descriptor_accepts_any_intn_length_witness :
    (7 : Nat) ≤ 255 ∧
      TypeInfo.parse ⟨[0x26, 7, 1, 2]⟩ =
        .ok (TypeInfo.varLenSized VarLenType.intn 7, ⟨[1, 2]⟩) :=
  ⟨by decide, C10_descriptor_accepts_any_intn_length 7 [1, 2] (by decide)⟩

/-- C6: a descriptor byte in neither tag table makes `TypeInfo::parse`
fail with a protocol error carrying the offending byte value, and the
outcome does not depend on any byte after the tag byte (no further byte
is consumed). -/
theorem C6_unknown_tag_protocol_error (b : Nat) (rest rest2 : List Nat)
    (hfix : FixedLenType.from_u8 b = none) (hvar : VarLenType.from_u8 b = none) :
    TypeInfo.parse ⟨b :: rest⟩ =
        .error (.protocol ("invalid or unsupported column type: " ++ toString b)) ∧
      TypeInfo.parse ⟨b :: rest⟩ = TypeInfo.parse ⟨b :: rest2⟩ := by
  constructor
  · simp [TypeInfo.parse, TdsTransport.read_u8, hfix, hvar]
  · simp [TypeInfo.parse, TdsTransport.read_u8, hfix, hvar]

/-- Witness for C6 at the unmapped byte 0x25 (a legacy tag absent from
both tables). -/
theorem C6_unknown_tag_protocol_error_witness :
    FixedLenType.from_u8 0x25 = none ∧ VarLenType.from_u8 0x25 = none ∧
      (TypeInfo.parse ⟨[0x25, 9, 9]⟩ =
          .error (.protocol ("invalid or unsupported column type: " ++ toString (0x25 : Nat))) ∧
        TypeInfo.parse ⟨[0x25, 9, 9]⟩ = TypeInfo.parse ⟨[0x25]⟩) :=
  ⟨by decide, by decide, C6_unknown_tag_protocol_error 0x25 [9, 9] [] (by decide) (by decide)⟩

/-- C5 counterexample: with metadata `VarLenSized(Intn, 4)` and a wire
length-prefix byte of 3, `ColumnData::parse` fails with an assertion
panic (from `assert_eq!`), not with a protocol error, so the claim that
the mismatch yields a Protocol error is false on the code. -/
theorem C5_counterexample :
    ColumnData.parse ⟨[3, 1, 2, 3, 4]⟩ ⟨TypeInfo.varLenSized VarLenType.intn 4⟩ =
        .error (.panicked "assertion failed: left == right") ∧
      failsWithProtocol
        (ColumnData.parse ⟨[3, 1, 2, 3, 4]⟩ ⟨TypeInfo.varLenSized VarLenType.intn 4⟩) = false ∧
      succeeds
        (ColumnData.parse ⟨[3, 1, 2, 3, 4]⟩ ⟨TypeInfo.varLenSized VarLenType.intn 4⟩) = false :=
  ⟨rfl, rfl, rfl⟩

/-- C5 (amended): with metadata `VarLenSized(Intn, 4)`, any wire
length-prefix byte other than 4 makes `ColumnData::parse` fail with an
assertion panic, which is distinguishable from a protocol error; the
mismatch is never silently tolerated and no integer value is produced. -/
theorem C5_amended_length_prefix_mismatch_panics (b : Nat) (rest : List Nat)
    (hb : b ≠ 4) :
    ColumnData.parse ⟨b :: rest⟩ ⟨TypeInfo.varLenSized VarLenType.intn 4⟩ =
        .error (.panicked "assertion failed: left == right") ∧
      (∀ m p, Failure.panicked m ≠ Failure.protocol p) := by
  refine ⟨?_, fun m p h => by cases h⟩
  simp [ColumnData.parse, TdsTransport.read_u8, hb]

/-- Witness for C5 (amended) at the length-prefix byte 7. -/
theorem C5_amended_length_prefix_mismatch_panics_witness :
    ColumnData.parse ⟨[7, 1, 2, 3, 4]⟩ ⟨TypeInfo.varLenSized VarLenType.intn 4⟩ =
        .error (.panicked "assertion failed: left == right") ∧
      (∀ m p, Failure.panicked m ≠ Failure.protocol p) :=
  C5_amended_length_prefix_mismatch_panics 7 [1, 2, 3, 4] (by decide)

/-- C7: every recognized-but-unhandled case fails with a panic (the
`unimplemented!()` and `panic!` conditions): a recognized variable-length
tag other than `Intn` in `TypeInfo::parse`; a fixed-length tag other than
`Int4` and an unsupported (tag, length) pair in `ColumnData::parse`; the
`BString` variant in `serialize`.  A panic is distinguishable from a
protocol error, and none of these cases produces a value. -/
theorem C7_unimplemented_cases_fail_loudly :
    (∀ (b : Nat) (rest : List Nat) (vty : VarLenType),
        FixedLenType.from_u8 b = none → VarLenType.from_u8 b = some vty →
        vty ≠ VarLenType.intn →
        TypeInfo.parse ⟨b :: rest⟩ = .error (.panicked "not implemented")) ∧
      (∀ (ft : FixedLenType) (buf : List Nat), ft ≠ FixedLenType.int4 →
        ColumnData.parse ⟨buf⟩ ⟨TypeInfo.fixedLen ft⟩ =
          .error (.panicked "unsupported fixed type decoding")) ∧
      (∀ (vt : VarLenType) (len : Nat) (buf : List Nat),
        vt ≠ VarLenType.intn ∨ len ≠ 4 →
        ColumnData.parse ⟨buf⟩ ⟨TypeInfo.varLenSized vt len⟩ =
          .error (.panicked "not implemented")) ∧
      (∀ (buf : List Nat) (target : Sink) (last_pos : Nat),
        ColumnData.serialize (ColumnData.bstring buf) target last_pos =
          .error (.panicked "not implemented")) ∧
      (∀ m p, Failure.panicked m ≠ Failure.protocol p) := by
  refine ⟨?_, ?_, ?_, fun _ _ _ => rfl, fun m p h => by cases h⟩
  · intro b rest vty hfix hvar hne
    cases vty <;> first
      | exact absurd rfl hne
      | simp [TypeInfo.parse, TdsTransport.read_u8, hfix, hvar]
  · intro ft buf hne
    cases ft <;> first
      | exact absurd rfl hne
      | rfl
  · intro vt len buf hne
    cases vt <;> try rfl
    rcases len with _ | _ | _ | _ | _ | len <;> first
      | rfl
      | exact absurd (Or.resolve_left hne (fun h => h rfl)) (fun h => h rfl)

/-- Witness for C7: the `Guid` descriptor tag, the `Int1` fixed tag, the
pair `(Intn, 7)` and a `BString` each fail with the panic condition, and
panics differ from protocol errors. -/
theorem C7_unimplemented_cases_fail_loudly_witness :
    TypeInfo.parse ⟨[0x24, 9]⟩ = .error (.panicked "not implemented") ∧
      ColumnData.parse ⟨[1, 2]⟩ ⟨TypeInfo.fixedLen FixedLenType.int1⟩ =
        .error (.panicked "unsupported fixed type decoding") ∧
      ColumnData.parse ⟨[1, 2]⟩ ⟨TypeInfo.varLenSized VarLenType.intn 7⟩ =
        .error (.panicked "not implemented") ∧
      ColumnData.serialize (ColumnData.bstring [1]) ⟨[], 5⟩ 0 =
        .error (.panicked "not implemented") ∧
      Failure.panicked "not implemented" ≠ Failure.protocol "x" :=
  ⟨C7_unimplemented_cases_fail_loudly.1 0x24 [9] VarLenType.guid (by decide) (by decide)
      (by decide),
    C7_unimplemented_cases_fail_loudly.2.1 FixedLenType.int1 [1, 2] (by decide),
    C7_unimplemented_cases_fail_loudly.2.2.1 VarLenType.intn 7 [1, 2] (Or.inr (by decide)),
    C7_unimplemented_cases_fail_loudly.2.2.2.1 [1] ⟨[], 5⟩ 0,
    C7_unimplemented_cases_fail_loudly.2.2.2.2 "not implemented" "x"⟩

/-- C9: `i32::from_column_data` returns `Ok(v)` exactly on the `I32(v)`
variant and a conversion error (neither a protocol error nor a panic) on
every other variant; `i32::to_column_data` is total and round-trips
through extraction. -/
theorem C9_i32_conversion :
    (∀ (d : ColumnData) (z : Int),
        from_column_data_i32 d = .ok z ↔ d = ColumnData.i32 z) ∧
      (∀ d : ColumnData, (∀ z : Int, d ≠ ColumnData.i32 z) →
        from_column_data_i32 d =
          .error (.conversion "cannot interpret the given column data as an i32 value")) ∧
      (∀ m p, Failure.conversion m ≠ Failure.protocol p ∧
        Failure.conversion m ≠ Failure.panicked p) ∧
      (∀ z : Int, from_column_data_i32 (to_column_data_i32 z) = .ok z) := by
  refine ⟨?_, ?_, ?_, fun _ => rfl⟩
  · intro d z
    cases d <;> simp [from_column_data_i32]
  · intro d hd
    cases d with
    | i32 z => exact absurd rfl (hd z)
    | str s => rfl
    | bstring b => rfl
  · intro m p
    exact ⟨fun h => Failure.noConfusion h, fun h => Failure.noConfusion h⟩

/-- Witness for C9: extraction from a string variant yields the
conversion error, and wrapping 9 then extracting yields 9. -/
theorem C9_i32_conversion_witness :
    (from_column_data_i32 (ColumnData.str "abc") = .ok 7 ↔
        ColumnData.str "abc" = ColumnData.i32 7) ∧
      from_column_data_i32 (ColumnData.str "abc") =
        .error (.conversion "cannot interpret the given column data as an i32 value") ∧
      (Failure.conversion "m" ≠ Failure.protocol "p" ∧
        Failure.conversion "m" ≠ Failure.panicked "p") ∧
      from_column_data_i32 (to_column_data_i32 9) = .ok 9 :=
  ⟨C9_i32_conversion.1 (ColumnData.str "abc") 7,
    C9_i32_conversion.2.1 (ColumnData.str "abc")
      (fun _ h => ColumnData.noConfusion h),
    C9_i32_conversion.2.2.1 "m" "p",
    C9_i32_conversion.2.2.2 9⟩

end Tds
